import Mathlib

/-!
Verification of the `TypeScriptNextjsAnalyser` extraction engine
(packages/context-worker/src/code-context/typescript/TypeScriptNextjsAnalyser.ts).

The analyser consumes two external capabilities: a tree-sitter pattern query
engine (which returns lists of named captures for each of the three queries
declared in the class) and a structurer (which returns the list of top-level
functions of the file).  Both are modelled as inputs: a call's `AnalyseArgs`
record carries the capture lists the query engine would return for the parsed
tree and the `CodeFile` the structurer would return.  Everything the analyser
itself does with those answers is translated directly from the source.

JavaScript strings are modelled as Lean `String`, with the JS/Node string
operations (`includes`, `endsWith`, `indexOf`+`substring`, `path.extname`,
`path.dirname`, `path.basename`, regex replaces) defined below over the
underlying character lists.  All inputs in the claims are ASCII, where the
UTF-16 index arithmetic of JS agrees with character counting.

A JavaScript runtime exception (the analyser can throw a `TypeError`, see
`findUsagesGo`) is modelled by the `err` field of `AnalysisOutcome`; demands
and resources pushed before the exception are kept, as the mutated instance
fields would be.
-/

namespace AutodevNextjs

/-! ### JS / Node string primitives -/

/-- Suffix of `s` starting at the first occurrence of `pat`
(JS `s.substring(s.indexOf(pat))`); `none` when `indexOf` returns `-1`. -/
def suffixFromFirst : List Char → List Char → Option (List Char)
  | [], pat => if pat.isEmpty then some [] else none
  | c :: rest, pat =>
    if pat.isPrefixOf (c :: rest) then some (c :: rest)
    else suffixFromFirst rest pat

/-- JS `s.includes(pat)` (case-sensitive substring test). -/
def strContains (s pat : String) : Bool :=
  (suffixFromFirst s.data pat.data).isSome

/-- JS `s.endsWith(suf)`. -/
def strEndsWith (s suf : String) : Bool :=
  suf.data.isSuffixOf s.data

/-- The ASCII single-quote character (code 39). -/
def singleQuoteChar : Char := Char.ofNat 39

/-- The ASCII backtick character (code 96). -/
def backtickChar : Char := Char.ofNat 96

/-- Characters matched by an (unflagged) JS regex `.` — everything except
line terminators. -/
def jsDotMatches (c : Char) : Bool :=
  c ≠ '\n' && c ≠ '\r' && c ≠ Char.ofNat 8232 && c ≠ Char.ofNat 8233

/-- JS `s.toUpperCase()` (ASCII inputs; applied character by character). -/
def jsToUpper (s : String) : String :=
  ⟨s.data.map Char.toUpper⟩

/-- JS `s.toLowerCase()` (ASCII inputs; applied character by character). -/
def jsToLower (s : String) : String :=
  ⟨s.data.map Char.toLower⟩

/-- Quote characters of the `cleanStringLiteral` regex character class. -/
def isQuoteChar (c : Char) : Bool :=
  c == '"' || c == singleQuoteChar || c == backtickChar

/-- Model of `cleanStringLiteral`: the replace with the anchored regex
(one quote-class character, a dot-star group, one quote-class character)
strips one leading and one trailing quote character when both are present and
the middle contains no line terminator (a JS dot does not match those);
otherwise the text is returned unchanged. -/
def cleanStringLiteral (text : String) : String :=
  let cs := text.data
  if 2 ≤ cs.length then
    match cs.head?, cs.getLast? with
    | some c, some last =>
      let middle := (cs.drop 1).dropLast
      if isQuoteChar c && isQuoteChar last && middle.all jsDotMatches then
        ⟨middle⟩
      else text
    | _, _ => text
  else text

/-- Model of the global replace deleting every single or double quote
character (used on the captured string literal of a method comparison). -/
def removeQuoteChars (s : String) : String :=
  ⟨s.data.filter (fun c => c ≠ singleQuoteChar && c ≠ '"')⟩

/-- Node `path.basename` (posix, no extension argument): strip trailing
slashes, then keep what follows the last slash. -/
def pathBasename (p : String) : String :=
  let cs := (p.data.reverse.dropWhile (· == '/')).reverse
  ⟨(cs.reverse.takeWhile (· ≠ '/')).reverse⟩

/-- Node `path.dirname` (posix): strip trailing slashes, drop the last
component; `.` when there is no slash, `/` when only the root remains. -/
def pathDirname (p : String) : String :=
  let cs := (p.data.reverse.dropWhile (· == '/')).reverse
  let pre := (cs.reverse.dropWhile (· ≠ '/')).reverse
  if pre.isEmpty then "."
  else
    let pre2 := (pre.reverse.dropWhile (· == '/')).reverse
    if pre2.isEmpty then "/" else ⟨pre2⟩

/-- Index of the last `.` in a character list, if any. -/
def lastDotIndex (cs : List Char) : Option Nat :=
  match cs.reverse.findIdx? (· == '.') with
  | none => none
  | some j => some (cs.length - 1 - j)

/-- Node `path.extname` (posix): the part of the basename from its last dot,
empty for dotfiles (leading dot only), for `..`, and when there is no dot. -/
def pathExtname (p : String) : String :=
  let base := (pathBasename p).data
  if base == "..".data then ""
  else
    match lastDotIndex base with
    | none => ""
    | some 0 => ""
    | some i => ⟨base.drop i⟩

/-! ### Data model (`@autodev/worker-core` record shapes) -/

/-- One named capture delivered by the tree-sitter query engine:
capture label, matched node text, and node start byte offset. -/
structure Capture where
  name : String
  text : String
  startIndex : Nat
deriving Repr, DecidableEq

/-- A function of the structurer's code model (only the name is consumed). -/
structure CodeFunction where
  name : String
deriving Repr, DecidableEq

/-- The structurer's code model of one file (only `functions` is consumed). -/
structure CodeFile where
  functions : List CodeFunction
deriving Repr, DecidableEq

/-- Record `ApiResource`: one HTTP endpoint the file exposes. -/
structure ApiResource where
  id : String
  sourceUrl : String
  sourceHttpMethod : String
  packageName : String
  className : String
  methodName : String
  supplyType : String
deriving Repr, DecidableEq

/-- Record `ApiDemand`: one outbound HTTP call found in the file. -/
structure ApiDemand where
  sourceCaller : String
  targetUrl : String
  targetHttpMethod : String
deriving Repr, DecidableEq

/-- The mutable per-scan accumulator of `findApiClientUsages`. -/
structure Invocation where
  clientName : String
  methodName : String
  urlArg : String
deriving Repr, DecidableEq

/-! ### Route classification and URL derivation -/

/-- Predicate `isNextApiRoute`: the file lies under `/pages/api/` or
`/app/api/`. -/
def isNextApiRoute (filePath : String) : Bool :=
  strContains filePath "/pages/api/" || strContains filePath "/app/api/"

/-- The suffix rewrite `apiPath.substring(0, apiPath.length - 6)` guarded by
`apiPath.endsWith(suf)`; both suffixes at the call sites have length 6. -/
def dropLast6IfEndsWith (s suf : String) : String :=
  if strEndsWith s suf then ⟨s.data.take (s.data.length - 6)⟩ else s

/-- Path derivation `extractApiUrlFromFilePath`: substring from the first `/api/` on, minus
the file extension, minus a trailing `/index`, minus a trailing `/route`
(two independent rewrites, applied in that order). -/
def extractApiUrlFromFilePath (filePath : String) : String :=
  match suffixFromFirst filePath.data "/api/".data with
  | none => ""
  | some cs =>
    let apiPath : String := ⟨cs⟩
    let extName := pathExtname apiPath
    let apiPath : String := ⟨apiPath.data.take (apiPath.data.length - extName.data.length)⟩
    let apiPath := dropLast6IfEndsWith apiPath "/index"
    let apiPath := dropLast6IfEndsWith apiPath "/route"
    apiPath

/-! ### Method extractors -/

/-- The recognition list of `extractAppRouterHttpMethods`. -/
def validAppRouterMethods : List String :=
  ["GET", "POST", "PUT", "DELETE", "PATCH", "HEAD", "OPTIONS"]

/-- Extractor `extractAppRouterHttpMethods`: every `http-method` capture whose
upper-cased text is a recognized HTTP method, in capture order and without
deduplication. -/
def extractAppRouterHttpMethods (caps : List Capture) : List String :=
  caps.filterMap fun cap =>
    if cap.name == "http-method" then
      let httpMethod := jsToUpper cap.text
      if validAppRouterMethods.contains httpMethod then some httpMethod else none
    else none

/-- One step of the `extractSupportedHttpMethods` loop over the capture list
(`caps` is the whole list, searched by the inner `captures.find`). -/
def supportedStep (caps : List Capture) (methods : List String) (cap : Capture) :
    List String :=
  if cap.name == "method" && cap.text == "method" then
    match caps.find? (fun c =>
        c.name == "httpMethod" && decide (cap.startIndex < c.startIndex)) with
    | some nextCapture =>
      let m := jsToUpper (removeQuoteChars nextCapture.text)
      if m ≠ "" ∧ m ∉ methods then methods ++ [m] else methods
    | none => methods
  else methods

/-- Extractor `extractSupportedHttpMethods`: for each `method` capture with text
`method`, the first later-starting `httpMethod` capture contributes its text
(quotes removed, upper-cased), deduplicated, in first-seen order. -/
def extractSupportedHttpMethods (caps : List Capture) : List String :=
  caps.foldl (supportedStep caps) []

/-! ### Client-call detection -/

/-- The verb-to-method ladder of `findApiClientUsages`. -/
def httpMethodOfClientVerb (methodName : String) : String :=
  let m := jsToLower methodName
  if m == "get" then "GET"
  else if m == "post" then "POST"
  else if m == "delete" then "DELETE"
  else if m == "put" then "PUT"
  else if m == "patch" then "PATCH"
  else ""

/-- The capture loop of `findApiClientUsages`.  `client` and `method`
captures overwrite the accumulator; a `url` capture triggers emission when
all three parts are non-empty (the accumulator is then reset, whether or not
the verb is recognized).  The TypeScript signature declares `currentFunction:
CodeFunction`, but the app-router call site passes the possibly-`undefined`
result of an array `find`; dereferencing `currentFunction.name` then throws
a `TypeError`, modelled by the `Option String` error component (demands found
before the throw are kept, as the pushed array elements would be). -/
def findUsagesGo (currentFunction : Option CodeFunction) :
    List Capture → Invocation → List ApiDemand × Option String
  | [], _ => ([], none)
  | cap :: rest, inv =>
    if cap.name == "client" then
      findUsagesGo currentFunction rest { inv with clientName := cap.text }
    else if cap.name == "method" then
      findUsagesGo currentFunction rest { inv with methodName := cap.text }
    else if cap.name == "url" then
      let inv2 := { inv with urlArg := cleanStringLiteral cap.text }
      if inv2.clientName ≠ "" ∧ inv2.methodName ≠ "" ∧ inv2.urlArg ≠ "" then
        let httpMethod := httpMethodOfClientVerb inv2.methodName
        if httpMethod ≠ "" then
          match currentFunction with
          | none => ([], some "TypeError: cannot read name of undefined")
          | some f =>
            let next := findUsagesGo currentFunction rest ⟨"", "", ""⟩
            (⟨f.name, inv2.urlArg, httpMethod⟩ :: next.1, next.2)
        else findUsagesGo currentFunction rest ⟨"", "", ""⟩
      else findUsagesGo currentFunction rest inv2
    else findUsagesGo currentFunction rest inv

/-- Scan `findApiClientUsages` over the `restClientQuery` captures: the
demands pushed (in order) and the error, if the scan threw. -/
def findApiClientUsages (caps : List Capture) (currentFunction : Option CodeFunction) :
    List ApiDemand × Option String :=
  findUsagesGo currentFunction caps ⟨"", "", ""⟩

/-! ### Emission -/

/-- The resource record both emitters push (`id` empty, `supplyType`
`"Nextjs"`, package and class derived from the file path). -/
def mkNextjsResource (apiUrl method filePath methodName : String) : ApiResource :=
  { id := ""
    sourceUrl := apiUrl
    sourceHttpMethod := method
    packageName := pathDirname filePath
    className := pathBasename filePath
    methodName := methodName
    supplyType := "Nextjs" }

/-- Outcome of one analysis call: the resources the call returns, the demands
it pushes onto the instance, and the exception it throws, if any. -/
structure AnalysisOutcome where
  resources : List ApiResource
  demands : List ApiDemand
  err : Option String
deriving Repr, DecidableEq

/-- Methods the app-router emitter keeps (`continue` filters the rest). -/
def emittedAppMethods : List String := ["GET", "POST", "PUT", "DELETE", "PATCH"]

/-- The per-method loop of `analyseNextAppRouterApi`: for each accepted
method push one resource, look the handler up by name in the code model, and
scan the whole capture list for client calls.  An exception aborts the loop;
resources and demands pushed before it are kept. -/
def appRouterLoop (codeFile : CodeFile) (clientCaps : List Capture)
    (apiUrl filePath : String) :
    List String → List ApiResource × List ApiDemand × Option String
  | [] => ([], [], none)
  | method :: rest =>
    if emittedAppMethods.contains method then
      match findApiClientUsages clientCaps
          (codeFile.functions.find? (fun f => f.name == method)) with
      | (ds, some e) => ([mkNextjsResource apiUrl method filePath method], ds, some e)
      | (ds, none) =>
        (mkNextjsResource apiUrl method filePath method ::
            (appRouterLoop codeFile clientCaps apiUrl filePath rest).1,
         ds ++ (appRouterLoop codeFile clientCaps apiUrl filePath rest).2.1,
         (appRouterLoop codeFile clientCaps apiUrl filePath rest).2.2)
    else appRouterLoop codeFile clientCaps apiUrl filePath rest

/-- App-router emitter `analyseNextAppRouterApi`. -/
def analyseNextAppRouterApi (initialized : Bool) (codeFile : CodeFile)
    (appCaps clientCaps : List Capture) (apiUrl filePath : String) :
    AnalysisOutcome :=
  if initialized then
    let out := appRouterLoop codeFile clientCaps apiUrl filePath
      (extractAppRouterHttpMethods appCaps)
    ⟨out.1, out.2.1, out.2.2⟩
  else ⟨[], [], none⟩

/-- The handler-locating predicate of `analyseNextApiRoute`. -/
def pagesHandlerPred (f : CodeFunction) : Bool :=
  f.name == "handler" || f.name == "GET" || f.name == "POST" ||
    f.name == "PUT" || f.name == "DELETE" || f.name == "PATCH"

/-- The fallback method set of the pages-router emitter. -/
def defaultPagesMethods : List String := ["GET", "POST", "PUT", "DELETE", "PATCH"]

/-- The JS expression `handlerFunction[0]` — numeric indexing of a
`CodeFunction` object, which has no element `0`, so it evaluates to
`undefined` for every handler; `handlerFunction[0] || 'handler'` is therefore
always `"handler"`. -/
def codeFunctionIndexZero (_f : CodeFunction) : Option String := none

/-- Pages-router emitter `analyseNextApiRoute`. -/
def analyseNextApiRoute (initialized : Bool) (codeFile : CodeFile)
    (methodCaps clientCaps : List Capture) (apiUrl filePath : String) :
    AnalysisOutcome :=
  if initialized then
    match codeFile.functions.find? pagesHandlerPred with
    | none => ⟨[], [], none⟩
    | some handlerFunction =>
      let supportedMethods := extractSupportedHttpMethods methodCaps
      let resources :=
        if 0 < supportedMethods.length then
          supportedMethods.map (fun method =>
            mkNextjsResource apiUrl method filePath
              ((codeFunctionIndexZero handlerFunction).getD "handler"))
        else
          defaultPagesMethods.map (fun method =>
            mkNextjsResource apiUrl method filePath
              (if handlerFunction.name == "" then "handler" else handlerFunction.name))
      let found := findApiClientUsages clientCaps (some handlerFunction)
      ⟨resources, found.1, found.2⟩
  else ⟨[], [], none⟩

/-! ### The public entry point -/

/-- The inputs of one `analyse` call together with the answers of the two
external collaborators for that source file: the structurer's code model
(`none` models a `null` parse result) and the capture lists the query engine
returns for the three queries of the class.  `workspacePath` is never read by
`analyse`. -/
structure AnalyseArgs where
  sourceCode : String
  filePath : String
  workspacePath : String
  codeFile : Option CodeFile
  appRouterCaptures : List Capture
  httpMethodCaptures : List Capture
  restClientCaptures : List Capture
deriving Repr, DecidableEq

/-- Entry point `analyse`: guard clauses (uninitialized analyser, empty source, non-API
path, failed parse, file name not ending in `route.ts`/`route.js`), then URL
derivation and dispatch on the `/app/api/` substring. -/
def analyse (initialized : Bool) (a : AnalyseArgs) : AnalysisOutcome :=
  if !initialized then ⟨[], [], none⟩
  else if a.sourceCode == "" then ⟨[], [], none⟩
  else if !isNextApiRoute a.filePath then ⟨[], [], none⟩
  else
    match a.codeFile with
    | none => ⟨[], [], none⟩
    | some codeFile =>
      if !strEndsWith a.filePath "route.ts" && !strEndsWith a.filePath "route.js" then
        ⟨[], [], none⟩
      else
        let apiUrl := extractApiUrlFromFilePath a.filePath
        if strContains a.filePath "/app/api/" then
          analyseNextAppRouterApi initialized codeFile a.appRouterCaptures
            a.restClientCaptures apiUrl a.filePath
        else
          analyseNextApiRoute initialized codeFile a.httpMethodCaptures
            a.restClientCaptures apiUrl a.filePath

/-- Modelled from the spec: the base class `RestApiAnalyser` is not among the
analysed sources; per the spec it holds the instance state — the
initialization flag set by `init` (parser and language) and the demand list,
which is "accumulated internally and exposed as a separate list via the same
analyzer instance".  The source never clears `this.demands`. -/
structure AnalyserState where
  initialized : Bool
  demands : List ApiDemand
deriving Repr, DecidableEq

/-- One `analyse` call on an analyser instance: the value returned to the
caller (`Except.error` models a thrown exception / rejected promise) and the
instance state afterwards, with the call's demands appended. -/
def analyseStep (st : AnalyserState) (a : AnalyseArgs) :
    Except String (List ApiResource) × AnalyserState :=
  let out := analyse st.initialized a
  (match out.err with
   | some e => .error e
   | none => .ok out.resources,
   { st with demands := st.demands ++ out.demands })

/-! ### Helper lemmas -/

/-- Unfolding of the endsWith test into an explicit suffix decomposition. -/
theorem strEndsWith_iff (s suf : String) :
    strEndsWith s suf = true ↔ ∃ t : List Char, s.data = t ++ suf.data := by
  unfold strEndsWith
  rw [List.isSuffixOf_iff_suffix]
  constructor
  · rintro ⟨t, ht⟩
    exact ⟨t, ht.symm⟩
  · rintro ⟨t, ht⟩
    exact ⟨t, ht.symm⟩

/-- Taking all but the length of the appended suffix recovers the stem. -/
theorem take_sub_append (t u : List Char) :
    (t ++ u).take ((t ++ u).length - u.length) = t := by
  rw [List.length_append, Nat.add_sub_cancel]
  exact List.take_left t u

/-- On a string that decomposes as stem plus a 6-character suffix, the guarded
6-character drop returns exactly the stem. -/
theorem dropLast6IfEndsWith_append (t : List Char) (suf : String)
    (hlen : suf.data.length = 6) (hend : strEndsWith (⟨t ++ suf.data⟩ : String) suf = true) :
    dropLast6IfEndsWith (⟨t ++ suf.data⟩ : String) suf = ⟨t⟩ := by
  unfold dropLast6IfEndsWith
  rw [if_pos hend]
  have : (⟨t ++ suf.data⟩ : String).data = t ++ suf.data := rfl
  rw [this, ← hlen, take_sub_append]

/-- Each step of the method deduplicating fold preserves nodup. -/
theorem supportedStep_nodup (caps : List Capture) (acc : List String) (cap : Capture)
    (h : acc.Nodup) : (supportedStep caps acc cap).Nodup := by
  unfold supportedStep
  split
  · split
    · dsimp only
      split
      · next hcond =>
        refine h.append (List.nodup_singleton _) ?_
        intro a ha hb
        rw [List.mem_singleton] at hb
        exact hcond.2 (hb ▸ ha)
      · exact h
    · exact h
  · exact h

/-- The method deduplicating fold preserves nodup along the whole list. -/
theorem foldl_supportedStep_nodup (caps : List Capture) :
    ∀ (l : List Capture) (acc : List String), acc.Nodup →
      (l.foldl (supportedStep caps) acc).Nodup
  | [], _, h => h
  | c :: t, acc, h =>
    foldl_supportedStep_nodup caps t (supportedStep caps acc c)
      (supportedStep_nodup caps acc c h)

/-- The pages-router method extractor never returns a duplicate method. -/
theorem extractSupportedHttpMethods_nodup (caps : List Capture) :
    (extractSupportedHttpMethods caps).Nodup :=
  foldl_supportedStep_nodup caps caps [] List.nodup_nil

/-- On an error-free run, the app-router loop emits exactly one resource per
accepted method, carrying that method, in order. -/
theorem appRouterLoop_methods (cf : CodeFile) (cc : List Capture) (url path : String) :
    ∀ ms : List String, (appRouterLoop cf cc url path ms).2.2 = none →
      (appRouterLoop cf cc url path ms).1.map (fun r => r.sourceHttpMethod)
        = ms.filter (fun m => emittedAppMethods.contains m) := by
  intro ms
  induction ms with
  | nil => intro _; simp [appRouterLoop]
  | cons m rest ih =>
    intro h
    by_cases hc : emittedAppMethods.contains m
    · rcases hfu : findApiClientUsages cc (cf.functions.find? (fun f => f.name == m)) with
        ⟨ds, e?⟩
      cases e? with
      | some e =>
        rw [appRouterLoop, if_pos hc, hfu] at h
        simp at h
      | none =>
        rw [appRouterLoop, if_pos hc, hfu] at h ⊢
        simp only [List.map_cons, List.filter_cons, hc, if_pos]
        have hrest := ih h
        simp only [mkNextjsResource]
        rw [hrest]
    · rw [appRouterLoop, if_neg hc] at h ⊢
      rw [List.filter_cons_of_neg hc]
      exact ih h


/-! ### Claim theorems -/

/-- C1 counterexample: the claim says a pages-router file such as
`.../pages/api/users/index.ts` (initialized analyser, non-empty source) is
analyzed under the pages-router convention rather than rejected for its name.
In fact `analyse` rejects it at the `route.ts`/`route.js` file-name check and
returns the empty outcome, even though the pages-router emitter applied to
the same data would have produced five resources. -/
theorem C1_counterexample :
    analyse true
        ⟨"src", "/proj/pages/api/users/index.ts", "", some ⟨[⟨"handler"⟩]⟩, [], [], []⟩
      = ⟨[], [], none⟩
    ∧ (analyseNextApiRoute true ⟨[⟨"handler"⟩]⟩ [] []
          (extractApiUrlFromFilePath "/proj/pages/api/users/index.ts")
          "/proj/pages/api/users/index.ts").resources.length = 5 :=
  ⟨rfl, rfl⟩

/-- C1 amended: the file-name check requiring the path to end in `route.ts`
or `route.js` applies to every analyzed file, regardless of the routing
convention.  A file under `/pages/api/` with any other name yields the empty
outcome; a file under `/pages/api/` (and not under `/app/api/`) ending in
`route.ts` is analyzed under the pages-router convention. -/
theorem C1_amended (a : AnalyseArgs) (cf : CodeFile)
    (hcf : a.codeFile = some cf)
    (hsrc : (a.sourceCode == "") = false)
    (hp : strContains a.filePath "/pages/api/" = true) :
    (strEndsWith a.filePath "route.ts" = false →
      strEndsWith a.filePath "route.js" = false →
      analyse true a = ⟨[], [], none⟩)
    ∧ (strEndsWith a.filePath "route.ts" = true →
        strContains a.filePath "/app/api/" = false →
        analyse true a
          = analyseNextApiRoute true cf a.httpMethodCaptures a.restClientCaptures
              (extractApiUrlFromFilePath a.filePath) a.filePath) := by
  constructor
  · intro h4 h5
    simp [analyse, isNextApiRoute, hsrc, hp, hcf, h4, h5]
  · intro h4 h5
    simp [analyse, isNextApiRoute, hsrc, hp, hcf, h4, h5]

/-- C1 amended, witness: a `/pages/api/.../index.ts` file is rejected with an
empty outcome, and a `/pages/api/.../route.ts` file is handed to the
pages-router emitter. -/
theorem C1_amended_witness :
    analyse true
        ⟨"src", "/proj/pages/api/users/index.ts", "", some ⟨[⟨"handler"⟩]⟩, [], [], []⟩
      = ⟨[], [], none⟩
    ∧ analyse true
        ⟨"src", "/proj/pages/api/users/route.ts", "", some ⟨[⟨"handler"⟩]⟩, [], [], []⟩
      = analyseNextApiRoute true ⟨[⟨"handler"⟩]⟩ [] []
          (extractApiUrlFromFilePath "/proj/pages/api/users/route.ts")
          "/proj/pages/api/users/route.ts" :=
  ⟨(C1_amended
      ⟨"src", "/proj/pages/api/users/index.ts", "", some ⟨[⟨"handler"⟩]⟩, [], [], []⟩
      ⟨[⟨"handler"⟩]⟩ rfl rfl rfl).1 rfl rfl,
   (C1_amended
      ⟨"src", "/proj/pages/api/users/route.ts", "", some ⟨[⟨"handler"⟩]⟩, [], [], []⟩
      ⟨[⟨"handler"⟩]⟩ rfl rfl rfl).2 rfl rfl⟩

/-- C2: for every call on an initialized analyser with non-empty source whose
file path contains neither `/pages/api/` nor `/app/api/`, `analyse` returns
the empty resource list, pushes no demand, and raises no error. -/
theorem C2_nonApiPath_empty (a : AnalyseArgs)
    (hsrc : (a.sourceCode == "") = false)
    (hp : strContains a.filePath "/pages/api/" = false)
    (ha : strContains a.filePath "/app/api/" = false) :
    analyse true a = ⟨[], [], none⟩ := by
  simp [analyse, isNextApiRoute, hsrc, hp, ha]

/-- C2 witness at a concrete non-API path. -/
theorem C2_nonApiPath_empty_witness :
    analyse true ⟨"let x = 1", "/tmp/foo.ts", "", none, [], [], []⟩ = ⟨[], [], none⟩ :=
  C2_nonApiPath_empty ⟨"let x = 1", "/tmp/foo.ts", "", none, [], [], []⟩ rfl rfl rfl

/-- C3: an app-router file exporting functions named GET and POST only yields
exactly two resources, with methods GET and POST and the same file-derived
URL, with no error; a file exporting only OPTIONS yields no resource at all,
although OPTIONS is recognized by the extractor. -/
theorem C3_appRouter_method_filter :
    (analyse true ⟨"src", "/proj/app/api/users/route.ts", "", some ⟨[⟨"GET"⟩, ⟨"POST"⟩]⟩,
        [⟨"http-method", "GET", 16⟩, ⟨"http-method", "POST", 60⟩], [], []⟩).resources.map
        (fun r => (r.sourceHttpMethod, r.sourceUrl))
      = [("GET", "/api/users"), ("POST", "/api/users")]
    ∧ (analyse true ⟨"src", "/proj/app/api/users/route.ts", "", some ⟨[⟨"GET"⟩, ⟨"POST"⟩]⟩,
        [⟨"http-method", "GET", 16⟩, ⟨"http-method", "POST", 60⟩], [], []⟩).err = none
    ∧ extractAppRouterHttpMethods [⟨"http-method", "OPTIONS", 16⟩] = ["OPTIONS"]
    ∧ analyse true ⟨"src", "/proj/app/api/users/route.ts", "", some ⟨[⟨"OPTIONS"⟩]⟩,
        [⟨"http-method", "OPTIONS", 16⟩], [], []⟩
      = ⟨[], [], none⟩ :=
  ⟨by decide, by decide, by decide, by decide⟩

/-- C4 counterexample: in a pages-router file whose located handler function
is named GET and whose body compares the request method against a literal,
the emitted resource carries methodName `handler`, not the located handler
name: the `handlerFunction[0]` expression is `undefined`, so the default
`handler` is always used in the explicit-method branch. -/
theorem C4_counterexample :
    (analyse true ⟨"src", "/proj/pages/api/users/route.ts", "", some ⟨[⟨"GET"⟩]⟩, [],
        [⟨"method", "method", 10⟩, ⟨"httpMethod", "\"POST\"", 20⟩], []⟩).resources.map
        (fun r => (r.sourceHttpMethod, r.methodName))
      = [("POST", "handler")]
    ∧ (⟨[⟨"GET"⟩]⟩ : CodeFile).functions.find? pagesHandlerPred = some ⟨"GET"⟩
    ∧ ("handler" : String) ≠ "GET" :=
  ⟨by decide, rfl, by decide⟩

/-- C4 amended: when a handler function is located, the pages-router emitter
emits one resource per extracted method, all with methodName the literal
`handler` (the `handlerFunction[0]` indexing is `undefined`); when no
method-comparison conditional is found it emits one resource per default
method GET, POST, PUT, DELETE, PATCH, all with the located handler
function's name as methodName.  In particular a file with a `handler`
function and no conditional yields exactly five resources referencing
`handler`. -/
theorem C4_amended (cf : CodeFile) (mc cc : List Capture) (apiUrl path : String)
    (hf : CodeFunction) (hfind : cf.functions.find? pagesHandlerPred = some hf) :
    (extractSupportedHttpMethods mc ≠ [] →
      (analyseNextApiRoute true cf mc cc apiUrl path).resources.map
          (fun r => (r.sourceHttpMethod, r.methodName))
        = (extractSupportedHttpMethods mc).map (fun m => (m, "handler")))
    ∧ (extractSupportedHttpMethods mc = [] →
        (analyseNextApiRoute true cf mc cc apiUrl path).resources.map
            (fun r => (r.sourceHttpMethod, r.methodName))
          = defaultPagesMethods.map
              (fun m => (m, if hf.name == "" then "handler" else hf.name))) := by
  constructor
  · intro hne
    have hlen : 0 < (extractSupportedHttpMethods mc).length :=
      List.length_pos.mpr hne
    simp [analyseNextApiRoute, hfind, hlen, mkNextjsResource, codeFunctionIndexZero]
  · intro hnil
    have hlen : ¬ 0 < (extractSupportedHttpMethods mc).length := by
      simp [hnil]
    simp [analyseNextApiRoute, hfind, hlen, mkNextjsResource]

/-- C4 amended, witness: a pages-router file with a `handler` function and no
method-comparison conditional yields exactly the five default resources, all
referencing `handler`. -/
theorem C4_amended_witness :
    (analyseNextApiRoute true ⟨[⟨"handler"⟩]⟩ [] [] "/api/a"
        "/p/pages/api/a/route.ts").resources.map
        (fun r => (r.sourceHttpMethod, r.methodName))
      = [("GET", "handler"), ("POST", "handler"), ("PUT", "handler"),
         ("DELETE", "handler"), ("PATCH", "handler")] :=
  (C4_amended ⟨[⟨"handler"⟩]⟩ [] [] "/api/a" "/p/pages/api/a/route.ts"
    ⟨"handler"⟩ rfl).2 rfl

/-- C5: the client-call scan emits a demand exactly for correlated matches
with all three parts present and a recognized verb: the capture sequence of
`api.get("/users/1", opts)` inside a handler yields exactly one demand with
the handler's name, URL `/users/1` (quotes stripped) and method GET; the
capture sequence of `api.unknownVerb("/x")` yields none; and a `url` capture
with no preceding client and method parts yields none. -/
theorem C5_clientCall_demands (f : CodeFunction) :
    findApiClientUsages
        [⟨"client", "api", 0⟩, ⟨"method", "get", 4⟩, ⟨"url", "\"/users/1\"", 8⟩,
         ⟨"otherArgs", "opts", 22⟩] (some f)
      = ([⟨f.name, "/users/1", "GET"⟩], none)
    ∧ findApiClientUsages
        [⟨"client", "api", 0⟩, ⟨"method", "unknownVerb", 4⟩, ⟨"url", "\"/x\"", 16⟩]
        (some f)
      = ([], none)
    ∧ findApiClientUsages [⟨"url", "\"/x\"", 0⟩] (some f) = ([], none) :=
  ⟨rfl, rfl, rfl⟩


/-- Mapping the emitted method out of the built resource records recovers the
method list. -/
theorem map_sourceHttpMethod_mk (ms : List String) (url path mn : String) :
    (ms.map (fun m => mkNextjsResource url m path mn)).map
        (fun r => r.sourceHttpMethod) = ms := by
  induction ms with
  | nil => rfl
  | cons m t ih =>
    simp only [List.map_cons]
    rw [ih]
    rfl

/-- C6 counterexample: the app-router extractor does not deduplicate, so a
file exporting two functions whose names both uppercase to GET (`get` and
`GET`) yields two resources with the same HTTP method in one result. -/
theorem C6_counterexample :
    (analyse true ⟨"src", "/p/app/api/u/route.ts", "", some ⟨[⟨"get"⟩, ⟨"GET"⟩]⟩,
        [⟨"http-method", "get", 0⟩, ⟨"http-method", "GET", 30⟩], [], []⟩).resources.map
        (fun r => r.sourceHttpMethod)
      = ["GET", "GET"]
    ∧ ¬ (["GET", "GET"] : List String).Nodup :=
  ⟨by decide, by decide⟩

/-- C6 amended: a pages-router result never contains two resources with the
same HTTP method (the extractor deduplicates and the default set is
duplicate-free), while an error-free app-router result carries one resource
per accepted `http-method` capture, in capture order — so it repeats a method
exactly when two exported function names uppercase to the same verb. -/
theorem C6_amended (cfP : CodeFile) (mc ccP : List Capture) (urlP pathP : String)
    (cfA : CodeFile) (ac ccA : List Capture) (urlA pathA : String) :
    ((analyseNextApiRoute true cfP mc ccP urlP pathP).resources.map
        (fun r => r.sourceHttpMethod)).Nodup
    ∧ ((analyseNextAppRouterApi true cfA ac ccA urlA pathA).err = none →
        (analyseNextAppRouterApi true cfA ac ccA urlA pathA).resources.map
            (fun r => r.sourceHttpMethod)
          = (extractAppRouterHttpMethods ac).filter
              (fun m => emittedAppMethods.contains m)) := by
  constructor
  · cases hfind : cfP.functions.find? pagesHandlerPred with
    | none => simp [analyseNextApiRoute, hfind]
    | some hf =>
      by_cases hlen : 0 < (extractSupportedHttpMethods mc).length
      · have hres : (analyseNextApiRoute true cfP mc ccP urlP pathP).resources
            = (extractSupportedHttpMethods mc).map (fun m =>
                mkNextjsResource urlP m pathP ((codeFunctionIndexZero hf).getD "handler")) := by
          simp [analyseNextApiRoute, hfind, hlen]
        rw [hres, map_sourceHttpMethod_mk]
        exact extractSupportedHttpMethods_nodup mc
      · have hres : (analyseNextApiRoute true cfP mc ccP urlP pathP).resources
            = defaultPagesMethods.map (fun m =>
                mkNextjsResource urlP m pathP
                  (if hf.name == "" then "handler" else hf.name)) := by
          simp [analyseNextApiRoute, hfind, hlen]
        rw [hres, map_sourceHttpMethod_mk]
        decide
  · intro herr
    simp only [analyseNextAppRouterApi, if_true] at herr ⊢
    exact appRouterLoop_methods cfA ccA urlA pathA (extractAppRouterHttpMethods ac) herr

/-- C6 amended, witness: concrete instances of both halves. -/
theorem C6_amended_witness :
    ((analyseNextApiRoute true ⟨[⟨"handler"⟩]⟩ [] [] "/api/a"
        "/p/pages/api/a/route.ts").resources.map (fun r => r.sourceHttpMethod)).Nodup
    ∧ (analyseNextAppRouterApi true ⟨[⟨"GET"⟩]⟩ [⟨"http-method", "GET", 0⟩] []
          "/api/u" "/p/app/api/u/route.ts").resources.map (fun r => r.sourceHttpMethod)
      = (extractAppRouterHttpMethods [⟨"http-method", "GET", 0⟩]).filter
          (fun m => emittedAppMethods.contains m) :=
  ⟨(C6_amended ⟨[⟨"handler"⟩]⟩ [] [] "/api/a" "/p/pages/api/a/route.ts"
      ⟨[⟨"GET"⟩]⟩ [⟨"http-method", "GET", 0⟩] [] "/api/u" "/p/app/api/u/route.ts").1,
   (C6_amended ⟨[⟨"handler"⟩]⟩ [] [] "/api/a" "/p/pages/api/a/route.ts"
      ⟨[⟨"GET"⟩]⟩ [⟨"http-method", "GET", 0⟩] [] "/api/u" "/p/app/api/u/route.ts").2
      (by decide)⟩

/-- C7 counterexample: the two suffix rewrites are independent conditionals,
not exclusive alternatives: on the extension-stripped path
`/api/x/route/index` the index rule fires, and its result `/api/x/route`
still ends in `/route`, so the route rule fires as well — the derivation for
`/p/app/api/x/route/index.ts` drops both suffixes and returns `/api/x`. -/
theorem C7_counterexample :
    strEndsWith "/api/x/route/index" "/index" = true
    ∧ dropLast6IfEndsWith "/api/x/route/index" "/index" = "/api/x/route"
    ∧ strEndsWith "/api/x/route" "/route" = true
    ∧ extractApiUrlFromFilePath "/p/app/api/x/route/index.ts" = "/api/x" :=
  ⟨by decide, by decide, by decide, by decide⟩

/-- C7 amended: the rewrites are checked in index-then-route order, and both
fire on the same derivation exactly when the extension-stripped path ends
with `/route/index`; for every other path at most one rule applies. -/
theorem C7_amended (s : String) :
    (strEndsWith s "/index" = true ∧
        strEndsWith (dropLast6IfEndsWith s "/index") "/route" = true) ↔
      strEndsWith s "/route/index" = true := by
  constructor
  · rintro ⟨h1, h2⟩
    obtain ⟨t, ht⟩ := (strEndsWith_iff s "/index").mp h1
    have hcat : ("/route" : String).data ++ ("/index" : String).data
        = ("/route/index" : String).data := by decide
    have hs : s = ⟨t ++ ("/index" : String).data⟩ := by
      cases s with
      | mk data => exact congrArg String.mk ht
    rw [hs] at h2
    rw [dropLast6IfEndsWith_append t "/index" (by decide) (hs ▸ h1)] at h2
    obtain ⟨u, hu⟩ := (strEndsWith_iff ⟨t⟩ "/route").mp h2
    have hu2 : t = u ++ ("/route" : String).data := hu
    apply (strEndsWith_iff s "/route/index").mpr
    refine ⟨u, ?_⟩
    rw [ht, hu2, List.append_assoc, hcat]
  · intro h
    have hcat : ("/route" : String).data ++ ("/index" : String).data
        = ("/route/index" : String).data := by decide
    obtain ⟨u, hu⟩ := (strEndsWith_iff s "/route/index").mp h
    have hsplit : s.data = (u ++ ("/route" : String).data) ++ ("/index" : String).data := by
      rw [hu, List.append_assoc, hcat]
    have h1 : strEndsWith s "/index" = true :=
      (strEndsWith_iff s "/index").mpr ⟨u ++ ("/route" : String).data, hsplit⟩
    refine ⟨h1, ?_⟩
    have hs : s = ⟨(u ++ ("/route" : String).data) ++ ("/index" : String).data⟩ := by
      cases s with
      | mk data => exact congrArg String.mk hsplit
    rw [hs, dropLast6IfEndsWith_append _ "/index" (by decide) (hs ▸ h1)]
    exact (strEndsWith_iff _ "/route").mpr ⟨u, rfl⟩

/-- C7 amended, witness: the equivalence applied at the concrete path on
which both rewrites fire. -/
theorem C7_amended_witness :
    strEndsWith "/api/x/route/index" "/index" = true
    ∧ strEndsWith (dropLast6IfEndsWith "/api/x/route/index" "/index") "/route" = true :=
  (C7_amended "/api/x/route/index").mpr (by decide)

/-- C8: the URL derivation maps `.../pages/api/users/index.ts` and
`.../app/api/users/route.ts` to `/api/users`, and is idempotent on the
already-canonical `.../app/api/users`. -/
theorem C8_pathDerivation :
    extractApiUrlFromFilePath "/project/pages/api/users/index.ts" = "/api/users"
    ∧ extractApiUrlFromFilePath "/project/app/api/users/route.ts" = "/api/users"
    ∧ extractApiUrlFromFilePath "/project/app/api/users" = "/api/users" :=
  ⟨by decide, by decide, by decide⟩

/-- C9: evaluation at the failing input of the code bug.  An app-router file
exporting a lowercase `get` handler that performs `api.get("/x")` passes the
upper-cased GET through the method filter, but the handler lookup
`functions.find(f => f.name === "GET")` misses the lowercase function, so
`findApiClientUsages` dereferences an `undefined` handler and a `TypeError`
escapes `analyse` — contradicting the claim that no exception propagates. -/
theorem C9_exception_eval :
    (analyse true ⟨"export function get", "/proj/app/api/users/route.ts", "",
        some ⟨[⟨"get"⟩]⟩, [⟨"http-method", "get", 16⟩], [],
        [⟨"client", "api", 40⟩, ⟨"method", "get", 44⟩, ⟨"url", "\"/x\"", 48⟩]⟩).err
      = some "TypeError: cannot read name of undefined" :=
  by decide

/-- C10 counterexample: the instance demand list is never reset, so it is not
created fresh per call.  After a first call that finds one client call, a
second call on an unrelated file leaves that demand observable, although the
second call's inputs alone produce no demand. -/
theorem C10_counterexample :
    ((analyseStep
          ((analyseStep ⟨true, []⟩
              ⟨"src", "/p/pages/api/a/route.ts", "", some ⟨[⟨"handler"⟩]⟩, [], [],
               [⟨"client", "api", 40⟩, ⟨"method", "get", 44⟩,
                ⟨"url", "\"/x\"", 48⟩]⟩).2)
          ⟨"src", "/tmp/x.ts", "", none, [], [], []⟩).2).demands
      = [⟨"handler", "/x", "GET"⟩]
    ∧ ((analyseStep ⟨true, []⟩ ⟨"src", "/tmp/x.ts", "", none, [], [], []⟩).2).demands = []
    ∧ ([⟨"handler", "/x", "GET"⟩] : List ApiDemand) ≠ [] :=
  ⟨by decide, by decide, by decide⟩

/-- C10 amended: the resource list returned by a call (and whether it
raises) depends only on the call's inputs and the initialization flag, and
the instance demand list grows by appending exactly the demands the call's
inputs produce from a fresh instance — previous calls' demands persist in the
instance list rather than being cleared. -/
theorem C10_amended (st : AnalyserState) (a : AnalyseArgs) :
    (analyseStep st a).1 = (analyseStep ⟨st.initialized, []⟩ a).1
    ∧ (analyseStep st a).2.demands
        = st.demands ++ (analyseStep ⟨st.initialized, []⟩ a).2.demands
    ∧ (analyseStep st a).2.initialized = st.initialized := by
  refine ⟨rfl, ?_, rfl⟩
  simp [analyseStep]

end AutodevNextjs
